import Mathlib

/-!
# Verification of the ForceCode external-command layer

Shallow embedding of the repository's command execution and job-polling
core:

* `DXService.runCommand` (promise executor, stderr/error stream handlers,
  close handler, reject/resolve classification) — `src/unnamed/part_000`,
  lines 68–177;
* the argument codec used by `execAnon` (sentinel `#FC*SPACE*#`) —
  `src/unnamed/part_000`, lines 90–94 and 183;
* the cancellation subscription (`cancellationEmitter.on('cancelled',
  killPromise)`) and the `killPromise` kill dispatch — lines 109–112 and
  169–177;
* the `BulkLoader` polling loop `checkStatus` — `src/unnamed/part_001`,
  lines 127–144.

JavaScript strings are embedded as Lean `String`/`List Char`; the
JavaScript `String.prototype.split` / `Array.prototype.join` pair is
embedded exactly (leftmost, non-overlapping separator scan).  Parsed JSON
from the CLI is embedded by the result envelope the code actually
inspects: optional numeric `status` / `exitCode` fields, an optional
`result` payload (an array of items carrying an `error` string, or some
other value with its JavaScript truthiness), and an optional `message`
string.  The unbounded polling loop is embedded with explicit fuel.
-/

namespace ForceCode

/-! ## JavaScript string primitives -/

/-- JavaScript `haystack.indexOf(needle) > -1` over character lists:
`needle` occurs as a contiguous block somewhere in `haystack`. -/
def hasSubstr (needle : List Char) : List Char → Bool
  | [] => needle.isEmpty
  | c :: rest => needle.isPrefixOf (c :: rest) || hasSubstr needle rest

/-- JavaScript `s.indexOf(pat) > -1` on strings. -/
def strHasSubstr (pat s : String) : Bool :=
  hasSubstr pat.data s.data

/-- JavaScript `s.toLowerCase()` (code points lowered one by one; the
stderr patterns the code searches for are plain ASCII). -/
def jsToLower (s : String) : String :=
  ⟨s.data.map Char.toLower⟩

/-! ## ProcessRunner: stream handlers (`src/unnamed/part_000`, 118–131)

`runCommand` installs two handlers that mutate the `sfdxNotFound` flag:

* `cmd.stderr.on('data', ...)` (lines 118–126): a non-empty chunk is
  lowercased and the flag is *assigned*
  `indexOf('not found') > -1 || indexOf('not recognized') > -1`;
  an empty chunk leaves the flag alone;
* `cmd.on('error', ...)` (lines 128–131): the flag is assigned
  `data.message.indexOf('ENOENT') > -1`.

Events are delivered in order; the flag value at close is the fold of the
events over `false`. -/

/-- One event delivered to `runCommand`'s stream handlers before `close`:
a stderr `data` chunk or a process `error` event (with its message). -/
inductive StreamEv where
  | stderr (chunk : String)
  | errEv (message : String)
deriving DecidableEq, Repr

/-- Does a stderr chunk (lowercased) contain one of the two tool-missing
markers?  (`src/unnamed/part_000`, line 124.) -/
def chunkNotFound (chunk : String) : Bool :=
  strHasSubstr "not found" (jsToLower chunk) ||
    strHasSubstr "not recognized" (jsToLower chunk)

/-- Effect of one stream event on the `sfdxNotFound` flag
(`src/unnamed/part_000`, lines 118–131).  Note both handlers *assign*
the flag; they do not accumulate it. -/
def notFoundStep (flag : Bool) : StreamEv → Bool
  | .stderr chunk => if chunk = "" then flag else chunkNotFound chunk
  | .errEv message => strHasSubstr "ENOENT" message

/-- The `sfdxNotFound` flag observed by the close handler after a
sequence of stream events (initial value `false`, line 102). -/
def sfdxNotFoundAfter (evs : List StreamEv) : Bool :=
  evs.foldl notFoundStep false

/-! ## ProcessRunner: parsed-JSON envelope and the close handler
(`src/unnamed/part_000`, 133–165) -/

/-- One element of a JSON `result` array; the close handler reads its
`error` field (stringified by JavaScript `+`) when building `errMess`. -/
structure ErrItem where
  error : String
deriving DecidableEq, Repr

/-- The shape of a parsed `result` payload the close handler can meet:
an array of per-item objects, or some other value carried with its
JavaScript truthiness (a non-array value has no usable `length`). -/
inductive JsonResult where
  | arr (items : List ErrItem)
  | other (truthy : Bool)
deriving DecidableEq, Repr

/-- JavaScript truthiness of `json.result` (`!json.result`): absent is
falsy, an array is always truthy (even empty), anything else carries its
own truthiness. -/
def truthyResult : Option JsonResult → Bool
  | none => false
  | some (.arr _) => true
  | some (.other b) => b

/-- The fields of the parsed stdout JSON that the close handler inspects:
`status`, `exitCode` (numeric when present), `result`, `message`. -/
structure SfdxJson where
  status : Option Int := none
  exitCode : Option Int := none
  result : Option JsonResult := none
  message : Option String := none
deriving DecidableEq, Repr

/-- JavaScript `x > 0` for an optional numeric field (`undefined > 0` is
`false`). -/
def optGtZero : Option Int → Bool
  | some v => decide (0 < v)
  | none => false

/-- `errMess` as built by lines 155–160: defined only when
`json?.result?.length > 0`, i.e. the payload is a non-empty array; then
it is the concatenation, in list order, of each item's `error` followed
by a space. -/
def errMess : Option JsonResult → Option String
  | some (.arr (i :: is)) => some (String.join ((i :: is).map (fun r => r.error ++ " ")))
  | _ => none

/-- The value passed to `reject` (line 161):
`errMess || json?.message || error?.message || error`, where the `Error`
captured at line 84 has an empty `message`, so the final fallback is the
`Error` object itself (carrying the pre-invocation stack). -/
inductive RejectReason where
  | str (s : String)
  | errorObj
deriving DecidableEq, Repr

/-- JavaScript `||` over an optional string (empty string is falsy). -/
def orElseStr (o : Option String) (fallback : RejectReason) : RejectReason :=
  match o with
  | some s => if s = "" then fallback else .str s
  | none => fallback

/-- The rejection value built by lines 153–161. -/
def rejectValue (json : Option SfdxJson) : RejectReason :=
  orElseStr (errMess (json.bind (·.result)))
    (orElseStr (json.bind (·.message)) .errorObj)

/-- The reject condition of lines 147–152:
`!bypassReject && ((code && code > 0 && !json) ||
(json?.status > 0 && !json.result) || json?.exitCode > 0)`. -/
def shouldReject (bypassReject : Bool) (code : Option Int)
    (json : Option SfdxJson) : Bool :=
  !bypassReject &&
    ((match code with | some c => decide (0 < c) | none => false) && json.isNone ||
      (match json with
        | some j => optGtZero j.status && !truthyResult j.result
        | none => false) ||
      (match json with | some j => optGtZero j.exitCode | none => false))

/-- How the promise settles: `resolve(json?.result)` or `reject(reason)`
(`reject()` with no argument is `reject none`). -/
inductive Outcome where
  | resolve (v : Option JsonResult)
  | reject (r : Option RejectReason)
deriving DecidableEq, Repr

/-- The user-visible remediation notification raised by
`notifications.showError` at lines 142–144. -/
def sfdxCliMissingMsg : String :=
  "ForceCode: The SFDX CLI could not be found. Please download from [https://developer.salesforce.com/tools/sfdxcli](https://developer.salesforce.com/tools/sfdxcli) and install, then restart Visual Studio Code."

/-- Observable result of one `runCommand` invocation: how the promise
settles and the user-visible notifications raised (in order). -/
structure RunResult where
  outcome : Outcome
  userNotifications : List String
deriving DecidableEq, Repr

/-- The close handler (`src/unnamed/part_000`, lines 133–165), run once
when the process closes.  Inputs: the `bypassReject` argument, the stream
events delivered before close (fixing `sfdxNotFound`), the exit `code`
(`null` embeds as `none`), and the result of `JSON.parse` on the
accumulated stdout (`none` on parse failure, which is logged but not
fatal). -/
def closeHandler (bypassReject : Bool) (evs : List StreamEv)
    (code : Option Int) (json : Option SfdxJson) : RunResult :=
  let notes := if sfdxNotFoundAfter evs then [sfdxCliMissingMsg] else []
  if shouldReject bypassReject code json then
    ⟨.reject (some (rejectValue json)), notes⟩
  else
    ⟨.resolve (json.bind (·.result)), notes⟩

/-- The promise executor of `runCommand` (lines 104–167): when `spawn`
returns `null` or a stream handle is `null`, it rejects at once with no
reason, attaching no handlers and raising no notification (lines
106–108); otherwise the invocation is decided by the close handler. -/
def runCommand (spawnFailed : Bool) (bypassReject : Bool)
    (evs : List StreamEv) (code : Option Int) (json : Option SfdxJson) :
    RunResult :=
  if spawnFailed then ⟨.reject none, []⟩
  else closeHandler bypassReject evs code json

/-! ## Cancellation subscription (`src/unnamed/part_000`, 109–112 and
169–177)

When a token is supplied, `runCommand` registers `killPromise` on the
token's event emitter (`cancellationToken.cancellationEmitter.on(
'cancelled', killPromise)`, line 111).  Each firing of the `'cancelled'`
event invokes every handler registered at that moment (standard event
emitter semantics); `killPromise` dispatches one `kill(pid, 'SIGKILL')`
to the process tree per invocation (lines 169–177).  The close handler
(lines 133–165) contains no `removeListener`/`off` call, so closing the
process changes the registered handlers in no way. -/

/-- State of one invocation's cancellation wiring: how many `killPromise`
handlers are registered on the token's emitter, whether the process has
closed, and how many kill dispatches have been made. -/
structure CancelState where
  killHandlers : Nat
  processClosed : Bool
  killSignals : Nat
deriving DecidableEq, Repr

/-- Events affecting the cancellation wiring: the registration at line
111, the process's `close` event, and a firing of the token's
`'cancelled'` event. -/
inductive CancelEv where
  | subscribe
  | closeFires
  | cancelFires
deriving DecidableEq, Repr

/-- One step of the cancellation wiring.  `closeFires` only marks the
process closed — the close handler removes no listener — and each
`cancelFires` invokes every registered handler, each dispatching one kill
to the recorded pid. -/
def cancelStep (st : CancelState) : CancelEv → CancelState
  | .subscribe => { st with killHandlers := st.killHandlers + 1 }
  | .closeFires => { st with processClosed := true }
  | .cancelFires => { st with killSignals := st.killSignals + st.killHandlers }

/-- Run the cancellation wiring from the initial state (no handler, not
closed, no signal). -/
def cancelRun (evs : List CancelEv) : CancelState :=
  evs.foldl cancelStep ⟨0, false, 0⟩

/-! ## Argument codec (`src/unnamed/part_000`, 90–94 and 183)

`execAnon` encodes a path by `file.split(' ').join('#FC*SPACE*#')`
(line 183) and `runCommand` decodes each argument token by
`arg.split('#FC*SPACE*#').join(' ')` (line 93).  JavaScript
`String.prototype.split` with a non-empty string separator scans left to
right for the leftmost occurrence, cuts, and continues after it;
`Array.prototype.join` intercalates the separator.  `jsSplit` embeds the
scan with explicit fuel (one unit per examined character, which always
suffices because every recursive step consumes at least one character
when the separator is non-empty). -/

/-- Fuelled leftmost split on a non-empty separator (JavaScript
`s.split(sep)` over character lists). -/
def jsSplitF (sep : List Char) : Nat → List Char → List (List Char)
  | 0, s => [s]
  | _ + 1, [] => [[]]
  | fuel + 1, c :: rest =>
    if sep.isPrefixOf (c :: rest) then
      [] :: jsSplitF sep fuel (rest.drop (sep.length - 1))
    else
      match jsSplitF sep fuel rest with
      | [] => [[c]]
      | p :: ps => (c :: p) :: ps

/-- JavaScript `s.split(sep)` over character lists. -/
def jsSplit (sep s : List Char) : List (List Char) :=
  jsSplitF sep s.length s

/-- JavaScript `parts.join(sep)` over character lists. -/
def jsJoin (sep : List Char) : List (List Char) → List Char
  | [] => []
  | [p] => p
  | p :: q :: ps => p ++ sep ++ jsJoin sep (q :: ps)

/-- The sentinel `'#FC*SPACE*#'`, as a character list. -/
def sentinelL : List Char := "#FC*SPACE*#".data

/-- The space separator, as a character list. -/
def spaceL : List Char := " ".data

/-- `encode`: line 183, `file.split(' ').join('#FC*SPACE*#')`. -/
def encodeArg (s : String) : String :=
  ⟨jsJoin sentinelL (jsSplit spaceL s.data)⟩

/-- `decode`: line 93, `arg.split('#FC*SPACE*#').join(' ')`. -/
def decodeArg (s : String) : String :=
  ⟨jsJoin spaceL (jsSplit sentinelL s.data)⟩

/-! ## JobPoller (`src/unnamed/part_001`, 127–144)

`checkStatus` schedules a tick after the poll interval; the tick awaits
`batch.check()`, posts `{state, processed, failures}` to the webview, and
reschedules itself unless `res.status` is `'Completed'`; any exception is
swallowed by the `try { ... } catch (e) {}` and nothing further is
scheduled.  The status-check stub is a function from the tick index to
`none` (the check raised) or `some` status; the unbounded loop is
embedded with explicit fuel bounding the number of ticks. -/

/-- The fields of a `batch.check()` result the tick reads. -/
structure BulkStatus where
  state : String
  numberRecordsProcessed : Nat
  numberRecordsFailed : Nat
  status : String
deriving DecidableEq, Repr

/-- The progress message posted to the webview by one tick
(`src/unnamed/part_001`, lines 134–138). -/
structure PostedMsg where
  state : String
  processed : Nat
  failures : Nat
deriving DecidableEq, Repr

/-- Projection from a check result to the posted message. -/
def postedOf (r : BulkStatus) : PostedMsg :=
  ⟨r.state, r.numberRecordsProcessed, r.numberRecordsFailed⟩

/-- Observable events of the polling loop: a status check being issued
(with its index) and a progress update being posted. -/
inductive PollEvent where
  | check (n : Nat)
  | update (m : PostedMsg)
deriving DecidableEq, Repr

/-- Trace of `checkStatus` ticks starting at tick `n`, against a stub
delivering `some` status or `none` (the check raised) per tick; `fuel`
bounds the number of ticks.  A raising check produces no update and
schedules nothing further (the `catch` swallows it); a result with
`status` equal to `'Completed'` is posted but not rescheduled. -/
def checkStatus (fuel : Nat) (stub : Nat → Option BulkStatus) (n : Nat) :
    List PollEvent :=
  match fuel with
  | 0 => []
  | fuel + 1 =>
    .check n ::
      match stub n with
      | none => []
      | some r =>
        .update (postedOf r) ::
          (if r.status ≠ "Completed" then checkStatus fuel stub (n + 1) else [])

/-! ## Helper lemmas -/

/-- A falsy `result` payload never yields an `errMess`. -/
theorem errMess_eq_none_of_falsy {r : Option JsonResult}
    (h : truthyResult r = false) : errMess r = none := by
  match r with
  | none => rfl
  | some (.arr items) => simp [truthyResult] at h
  | some (.other b) => rfl

/-! ## Claims about the close handler -/

/-- C1.  Whenever the tool-missing flag is true when the process closes,
the close handler raises exactly one user-visible remediation
notification — the fixed SFDX-install message — regardless of the exit
code, of the parsed JSON, and of the `tolerateNonZeroExit`
(`bypassReject`) setting.  The spec's `ToolNotFound` outcome is realized
in the code as exactly this one-time remediation notification (spec §8:
the invocation "rejects/resolves via the `ToolNotFound` path"); the
promise itself still settles through the ordinary classification, which
is untouched by the flag.  The close handler runs once per process, so
the notification is raised exactly once per invocation. -/
theorem toolMissing_one_notification (bypassReject : Bool)
    (evs : List StreamEv) (code : Option Int) (json : Option SfdxJson)
    (h : sfdxNotFoundAfter evs = true) :
    (closeHandler bypassReject evs code json).userNotifications =
      [sfdxCliMissingMsg] := by
  simp [closeHandler, h, apply_ite RunResult.userNotifications]

/-- Witness for C1: a concrete close with the flag set by a
`command not found` stderr chunk, a nonzero exit code, and
`tolerateNonZeroExit` enabled still yields exactly the one remediation
notification. -/
theorem toolMissing_one_notification_witness :
    sfdxNotFoundAfter [.stderr "sfdx: command not found"] = true ∧
      (closeHandler true [.stderr "sfdx: command not found"] (some 127)
          none).userNotifications = [sfdxCliMissingMsg] :=
  ⟨by decide,
    toolMissing_one_notification true [.stderr "sfdx: command not found"]
      (some 127) none (by decide)⟩

/-- C2.  With `bypassReject` (`tolerateNonZeroExit`) true, the close
handler always resolves with `parsedJson?.result` — for any exit code,
any stream events, and any parse result; in particular with a nonzero
exit code and unparsable stdout (`json = none`) it resolves with
`undefined` (`none`) — and never rejects. -/
theorem bypassReject_always_resolves (evs : List StreamEv)
    (code : Option Int) (json : Option SfdxJson) :
    (closeHandler true evs code json).outcome =
      .resolve (json.bind (·.result)) := by
  simp [closeHandler, shouldReject]

/-- C3.  Without `tolerateNonZeroExit` and with parsed JSON showing a
numeric `status` or `exitCode` field greater than zero and no (truthy)
`result` payload, the close handler rejects; since the `result` list is
empty/absent, the per-item-error concatenation contributes nothing and
the `Failure` message falls through the claimed precedence to the JSON's
own `message` field when that is a non-empty string, else to the
pre-invocation error context (the `Error` captured at line 84, whose own
`message` is empty). -/
theorem statusFailure_reject_precedence (evs : List StreamEv)
    (code : Option Int) (j : SfdxJson)
    (hres : truthyResult j.result = false)
    (hfail : optGtZero j.status = true ∨ optGtZero j.exitCode = true) :
    (closeHandler false evs code (some j)).outcome =
      .reject (some (orElseStr j.message .errorObj)) := by
  have hcond : shouldReject false code (some j) = true := by
    rcases hfail with h | h <;>
      simp [shouldReject, h, hres]
  unfold closeHandler
  rw [hcond]
  simp only [if_true]
  have : rejectValue (some j) = orElseStr j.message .errorObj := by
    unfold rejectValue
    rw [show (some j).bind (·.result) = j.result from rfl,
      errMess_eq_none_of_falsy hres]
    rfl
  rw [this]

/-- Witness for C3: `{status: 1, message: "boom"}` with exit code 0
rejects with `Failure "boom"`. -/
theorem statusFailure_reject_precedence_witness :
    truthyResult (SfdxJson.mk (some 1) none none (some "boom")).result
        = false ∧
      (closeHandler false [] (some 0)
          (some (SfdxJson.mk (some 1) none none (some "boom")))).outcome =
        .reject (some (orElseStr (some "boom") .errorObj)) :=
  ⟨by decide,
    statusFailure_reject_precedence [] (some 0)
      (SfdxJson.mk (some 1) none none (some "boom")) (by decide)
      (Or.inl (by decide))⟩

/-- C4.  Without `tolerateNonZeroExit` and without the tool-missing flag,
a nonzero exit code with unparsable stdout (`json = none`) makes the
close handler reject with the pre-invocation context: `errMess` and
`json?.message` are undefined and the `Error` captured before the spawn
(line 84) has an empty `message`, so the rejection value is that `Error`
object itself, carrying the pre-invocation stack. -/
theorem nonzeroExit_noJson_rejects_context (evs : List StreamEv)
    (c : Int) (_hflag : sfdxNotFoundAfter evs = false) (hc : 0 < c) :
    (closeHandler false evs (some c) none).outcome =
      .reject (some .errorObj) := by
  have hcond : shouldReject false (some c) none = true := by
    simp [shouldReject, hc]
  unfold closeHandler
  rw [hcond]
  rfl

/-- Witness for C4: exit code 2, no JSON, clean stderr. -/
theorem nonzeroExit_noJson_rejects_context_witness :
    sfdxNotFoundAfter [.stderr "some warning"] = false ∧ (0 : Int) < 2 ∧
      (closeHandler false [.stderr "some warning"] (some 2) none).outcome =
        .reject (some .errorObj) :=
  ⟨by decide, by decide,
    nonzeroExit_noJson_rejects_context [.stderr "some warning"] 2
      (by decide) (by decide)⟩

/-- C10.  When `spawn` returns `null` or the spawned process's stdout or
stderr stream handle is `null`, `runCommand` rejects immediately with no
reason value: no stream handler runs, no classification occurs, and no
notification is raised — whatever the other inputs would have been. -/
theorem spawnFailure_rejects_undefined (bypassReject : Bool)
    (evs : List StreamEv) (code : Option Int) (json : Option SfdxJson) :
    runCommand true bypassReject evs code json =
      ⟨.reject none, []⟩ := rfl

/-! ## Claims about the stderr flag (C5) -/

/-- The flag fold over stderr chunks only remembers the last non-empty
chunk: each non-empty chunk *assigns* the flag (line 124 is
`sfdxNotFound = ...`, not `sfdxNotFound ||= ...`), and empty chunks are
skipped by the `if (theErr)` guard. -/
theorem foldl_stderr_lastNonEmpty (chunks : List String) (b : Bool) :
    (chunks.map StreamEv.stderr).foldl notFoundStep b =
      ((chunks.filter (· ≠ "")).getLast?.elim b chunkNotFound) := by
  induction chunks generalizing b with
  | nil => rfl
  | cons c rest ih =>
    simp only [List.map_cons, List.foldl_cons]
    by_cases hc : c = ""
    · subst hc
      rw [show notFoundStep b (.stderr "") = b from rfl, ih b]
      simp [List.filter_cons]
    · rw [show notFoundStep b (.stderr c) = chunkNotFound c from
          by simp [notFoundStep, hc], ih (chunkNotFound c)]
      rw [show (c :: rest).filter (· ≠ "") = c :: rest.filter (· ≠ "") from
          by simp [List.filter_cons, hc]]
      cases hF : rest.filter (· ≠ "") with
      | nil => rfl
      | cons d ds =>
        rw [List.getLast?_cons_cons]
        cases hL : (d :: ds).getLast? with
        | none => simp [List.getLast?_eq_none_iff] at hL
        | some x => rfl

/-- C5 corrected (counterexample): a stderr chunk containing
`"not found"` does *not* guarantee the flag is set at close — a later
clean non-empty chunk overwrites it back to `false`, because the handler
assigns rather than accumulates. -/
theorem notFound_chunk_not_sticky_counterexample :
    chunkNotFound "command not found" = true ∧
      sfdxNotFoundAfter
        [.stderr "command not found", .stderr "retrying"] = false := by
  decide

/-- C5 amended.  The tool-missing flag observed at close equals the
marker test (`"not found"`/`"not recognized"`, case-insensitive) applied
to the *most recent non-empty* stderr chunk — `false` when every chunk is
empty or none was delivered — rather than being latched by any matching
chunk. -/
theorem sfdxNotFound_eq_last_nonEmpty_chunk (chunks : List String) :
    sfdxNotFoundAfter (chunks.map .stderr) =
      ((chunks.filter (· ≠ "")).getLast?.elim false chunkNotFound) :=
  foldl_stderr_lastNonEmpty chunks false

/-! ## Claims about cancellation (C6) -/

/-- C6 corrected (counterexample): firing the token after the process
has closed is *not* a no-op — the close handler (lines 133–165) removes
no listener, so the `killPromise` handler registered at line 111 still
fires and dispatches a termination attempt at the recorded pid. -/
theorem cancelAfterClose_not_noop_counterexample :
    (cancelRun [.subscribe, .closeFires, .cancelFires]).killSignals ≠ 0 := by
  decide

/-- C6 amended.  The cancellation handler is never unsubscribed: the
process's close event changes nothing but the closed marker, so firing
the token while the process runs dispatches the termination signal to
the process tree exactly once (one registered handler), and firing it
after the invocation has completed still invokes `killPromise`, which
dispatches one stale termination attempt (and its returned promise can
reject unobserved) instead of being a silent no-op. -/
theorem cancel_handler_never_unsubscribed :
    (∀ st : CancelState,
        cancelStep st .closeFires = { st with processClosed := true }) ∧
      (cancelRun [.subscribe, .cancelFires]).killSignals = 1 ∧
      (cancelRun [.subscribe, .closeFires, .cancelFires]).killSignals = 1 :=
  ⟨fun _ => rfl, by decide, by decide⟩

/-! ## Claims about the polling loop (C8, C9) -/

/-- Status-check stub for C8: non-terminal (`status` ≠ `'Completed'`) on
the first two ticks, terminal with 10 processed / 1 failed on the third. -/
def stubTerminalThird : Nat → Option BulkStatus := fun n =>
  if n < 2 then some ⟨"InProgress", 0, 0, "InProgress"⟩
  else some ⟨"Completed", 10, 1, "Completed"⟩

/-- C8.  Against a status check returning a non-terminal status twice and
a terminal status on the third call, the loop issues exactly three
checks, posts the three statuses in order, and — for every remaining
fuel, i.e. however long the loop could still run — performs nothing
further after the terminal status. -/
theorem poller_three_checks (fuel : Nat) :
    checkStatus (fuel + 3) stubTerminalThird 0 =
      [.check 0, .update ⟨"InProgress", 0, 0⟩,
        .check 1, .update ⟨"InProgress", 0, 0⟩,
        .check 2, .update ⟨"Completed", 10, 1⟩] := by
  rfl

/-- Status-check stub for C9: delivers one status, then raises
(`none`). -/
def stubRaisesSecond : Nat → Option BulkStatus := fun n =>
  if n = 0 then some ⟨"InProgress", 5, 0, "InProgress"⟩ else none

/-- C9.  If the status check raises (second tick here), the loop stops:
the first status was posted exactly once, the failing check posts no
update, and — for every remaining fuel — no further check is scheduled;
the `try { ... } catch (e) {}` absorbs the exception, so the trace simply
ends with no error event surfaced to the caller. -/
theorem poller_halts_on_raise (fuel : Nat) :
    checkStatus (fuel + 2) stubRaisesSecond 0 =
      [.check 0, .update ⟨"InProgress", 5, 0⟩, .check 1] := by
  rfl

end ForceCode

namespace ForceCode

/-! ## Codec lemmas -/

/-- `jsSplitF` always returns at least one part. -/
theorem jsSplitF_ne_nil (sep : List Char) (f : Nat) (s : List Char) :
    jsSplitF sep f s ≠ [] := by
  match f, s with
  | 0, s => simp [jsSplitF]
  | f + 1, [] => simp [jsSplitF]
  | f + 1, c :: rest =>
    simp only [jsSplitF]
    split
    · simp
    · split <;> simp

/-- The split is fuel-invariant once the fuel covers the input length. -/
theorem jsSplitF_fuel (sep : List Char) :
    ∀ (f g : Nat) (s : List Char), s.length ≤ f → s.length ≤ g →
      jsSplitF sep f s = jsSplitF sep g s := by
  intro f
  induction f with
  | zero =>
    intro g s hf _
    have hs : s = [] := List.eq_nil_of_length_eq_zero (Nat.le_zero.mp hf)
    subst hs
    cases g <;> rfl
  | succ f ih =>
    intro g s hf hg
    cases s with
    | nil => cases g <;> rfl
    | cons c rest =>
      cases g with
      | zero => simp at hg
      | succ g' =>
        simp only [jsSplitF]
        have hr : rest.length ≤ f := by simpa using hf
        have hrg : rest.length ≤ g' := by simpa using hg
        by_cases hpre : sep.isPrefixOf (c :: rest) = true
        · rw [if_pos hpre, if_pos hpre]
          have h1 : (rest.drop (sep.length - 1)).length ≤ f := by
            rw [List.length_drop]; omega
          have h2 : (rest.drop (sep.length - 1)).length ≤ g' := by
            rw [List.length_drop]; omega
          rw [ih g' _ h1 h2]
        · rw [if_neg hpre, if_neg hpre, ih g' rest hr hrg]

/-- `join` peels a leading character off the head part. -/
theorem jsJoin_cons_cons (sep : List Char) (c : Char) (p : List Char)
    (ps : List (List Char)) :
    jsJoin sep ((c :: p) :: ps) = c :: jsJoin sep (p :: ps) := by
  cases ps <;> simp [jsJoin]

/-- JavaScript `s.split(sep).join(sep) == s`: joining the split parts
with the same separator restores the input. -/
theorem jsJoin_jsSplitF (sep : List Char) (hsep : sep ≠ []) :
    ∀ (f : Nat) (s : List Char), s.length ≤ f →
      jsJoin sep (jsSplitF sep f s) = s := by
  intro f
  induction f with
  | zero =>
    intro s hf
    have hs : s = [] := List.eq_nil_of_length_eq_zero (Nat.le_zero.mp hf)
    subst hs; rfl
  | succ f ih =>
    intro s hf
    cases s with
    | nil => rfl
    | cons c rest =>
      simp only [jsSplitF]
      have hr : rest.length ≤ f := by simpa using hf
      by_cases hpre : sep.isPrefixOf (c :: rest) = true
      · rw [if_pos hpre]
        have hd : (rest.drop (sep.length - 1)).length ≤ f := by
          rw [List.length_drop]; omega
        rcases hT : jsSplitF sep f (rest.drop (sep.length - 1)) with _ | ⟨t, ts⟩
        · exact absurd hT (jsSplitF_ne_nil sep f _)
        · have hih := ih _ hd
          rw [hT] at hih
          rw [show jsJoin sep ([] :: t :: ts) = sep ++ jsJoin sep (t :: ts)
              from by simp [jsJoin], hih]
          have hpre' : sep <+: (c :: rest) := List.isPrefixOf_iff_prefix.mp hpre
          have hsplit : sep ++ (c :: rest).drop sep.length = c :: rest := by
            conv_rhs => rw [← List.take_append_drop sep.length (c :: rest)]
            rw [← List.prefix_iff_eq_take.mp hpre']
          obtain ⟨s1, srest, rfl⟩ := List.exists_cons_of_ne_nil hsep
          simp only [List.length_cons, Nat.add_sub_cancel]
          simp only [List.length_cons, List.drop_succ_cons] at hsplit
          exact hsplit
      · rw [if_neg hpre]
        rcases hE : jsSplitF sep f rest with _ | ⟨p, ps⟩
        · exact absurd hE (jsSplitF_ne_nil sep f rest)
        · have hih := ih rest hr
          rw [hE] at hih
          simp only [hE, jsJoin_cons_cons, hih]

/-- Splitting a string in which the separator never occurs yields the
one-part list. -/
theorem jsSplitF_no_occur (sep : List Char) :
    ∀ (f : Nat) (q : List Char), q.length ≤ f → ¬ sep <:+: q →
      jsSplitF sep f q = [q] := by
  intro f
  induction f with
  | zero =>
    intro q hf _
    have hs : q = [] := List.eq_nil_of_length_eq_zero (Nat.le_zero.mp hf)
    subst hs; rfl
  | succ f ih =>
    intro q hf hocc
    cases q with
    | nil => rfl
    | cons c rest =>
      simp only [jsSplitF]
      have hpre : ¬ sep.isPrefixOf (c :: rest) = true := by
        intro h
        exact hocc (List.isPrefixOf_iff_prefix.mp h).isInfix
      rw [if_neg hpre]
      have hrec : jsSplitF sep f rest = [rest] :=
        ih rest (by simpa using hf) (fun h => hocc (List.infix_cons h))
      rw [hrec]

/-- A separator occurrence at the very start of `(u ++ sep) ++ t` is
already visible in `u ++ sep`. -/
theorem prefix_of_append_append (sep u t : List Char)
    (h : sep <+: (u ++ sep) ++ t) : sep <+: u ++ sep := by
  rw [List.prefix_iff_eq_take] at h ⊢
  rwa [List.take_append_of_le_length (by simp)] at h

/-- The first ten characters of the sentinel. -/
def sentinelPfx : List Char := "#FC*SPACE*".data

/-- Safety of a part for boundary splitting: if a part contains no
sentinel occurrence and does not end with the ten-character sentinel
stem `#FC*SPACE*`, then no sentinel occurrence starts inside the part
and runs into a sentinel appended after it.  (A suffix `u` of the part
starting such an occurrence must be a sentinel prefix whose complement
is again a sentinel prefix, which for `#FC*SPACE*#` happens only at
length ten.) -/
theorem safePart_of_no_occur_no_stem (p : List Char)
    (h1 : ¬ sentinelL <:+: p) (h2 : ¬ sentinelPfx <:+ p) :
    ∀ u, u <:+ p → u ≠ [] → ¬ sentinelL <+: u ++ sentinelL := by
  intro u hu hne hpre
  by_cases hlen : sentinelL.length ≤ u.length
  · have hpu : sentinelL <+: u := by
      rw [List.prefix_iff_eq_take] at hpre ⊢
      rwa [List.take_append_of_le_length hlen] at hpre
    exact h1 (hpu.isInfix.trans hu.isInfix)
  · push_neg at hlen
    have hE : sentinelL = u ++ sentinelL.take (sentinelL.length - u.length) := by
      have h := List.prefix_iff_eq_take.mp hpre
      rw [List.take_append_eq_append_take,
        List.take_of_length_le (le_of_lt hlen)] at h
      exact h
    have hU : sentinelL.take u.length = u := by
      have h := congrArg (List.take u.length) hE
      rwa [List.take_append_of_le_length (le_refl _), List.take_length] at h
    have hD : sentinelL.drop u.length =
        sentinelL.take (sentinelL.length - u.length) := by
      have h := congrArg (List.drop u.length) hE
      rwa [List.drop_left] at h
    have hm1 : 1 ≤ u.length := by
      cases u with
      | nil => exact absurd rfl hne
      | cons _ _ => simp
    have hm2 : u.length ≤ 10 := by
      have hsl : sentinelL.length = 11 := by decide
      omega
    obtain ⟨m, hm⟩ : ∃ m, u.length = m := ⟨u.length, rfl⟩
    rw [hm] at hU hD hm1 hm2
    interval_cases m <;>
      first
        | exact absurd hD (by decide)
        | exact h2 ((((by rw [← hU]; decide) : u = sentinelPfx)) ▸ hu)

/-- Boundary splitting: splitting `p ++ sep ++ t` on `sep` cuts exactly
at the end of a safe part `p`. -/
theorem jsSplitF_boundary (sep : List Char) (hsep : sep ≠ []) :
    ∀ (p t : List Char) (f : Nat),
      (p ++ (sep ++ t)).length ≤ f →
      (∀ u, u <:+ p → u ≠ [] → ¬ sep <+: u ++ sep) →
      jsSplitF sep f (p ++ (sep ++ t)) = p :: jsSplit sep t := by
  intro p
  induction p with
  | nil =>
    intro t f hf _
    obtain ⟨s1, srest, rfl⟩ := List.exists_cons_of_ne_nil hsep
    cases f with
    | zero =>
      simp only [List.nil_append, List.cons_append, List.length_cons] at hf
      omega
    | succ f =>
      simp only [List.nil_append, List.cons_append, jsSplitF, List.append_eq]
      have hpre : (s1 :: srest).isPrefixOf (s1 :: (srest ++ t)) = true := by
        rw [List.isPrefixOf_iff_prefix]
        have h := List.prefix_append (s1 :: srest) t
        rwa [List.cons_append] at h
      rw [if_pos hpre]
      congr 1
      simp only [List.length_cons, Nat.add_sub_cancel, List.drop_left]
      apply jsSplitF_fuel
      · simp only [List.nil_append, List.cons_append, List.length_cons,
          List.length_append] at hf
        omega
      · exact le_refl _
  | cons c p' ih =>
    intro t f hf hsafe
    cases f with
    | zero =>
      simp only [List.cons_append, List.length_cons] at hf
      omega
    | succ f =>
      simp only [List.cons_append, jsSplitF, List.append_eq]
      have hpre : ¬ sep.isPrefixOf (c :: (p' ++ (sep ++ t))) = true := by
        intro h
        have hp := List.isPrefixOf_iff_prefix.mp h
        rw [← List.cons_append] at hp
        rw [← List.append_assoc] at hp
        exact hsafe (c :: p') (List.suffix_refl _) (by simp)
          (prefix_of_append_append sep (c :: p') t hp)
      rw [if_neg hpre]
      have hrec : jsSplitF sep f (p' ++ (sep ++ t)) = p' :: jsSplit sep t :=
        ih t f
          (by simp only [List.cons_append, List.length_cons] at hf; omega)
          (fun u hu hne => hsafe u (hu.trans (List.suffix_cons c p')) hne)
      rw [hrec]

/-- Splitting the sentinel-join of safe parts recovers the parts. -/
theorem jsSplit_jsJoin_parts :
    ∀ (parts : List (List Char)), parts ≠ [] →
      (∀ p ∈ parts, ¬ sentinelL <:+: p) →
      (∀ p ∈ parts.dropLast, ¬ sentinelPfx <:+ p) →
      jsSplit sentinelL (jsJoin sentinelL parts) = parts := by
  intro parts
  induction parts with
  | nil => intro h; exact absurd rfl h
  | cons p ps ih =>
    intro _ hocc hsafe
    cases ps with
    | nil =>
      exact jsSplitF_no_occur sentinelL _ p (le_refl _) (hocc p (by simp))
    | cons q qs =>
      rw [show jsJoin sentinelL (p :: q :: qs) =
          p ++ (sentinelL ++ jsJoin sentinelL (q :: qs)) from by simp [jsJoin]]
      unfold jsSplit
      rw [jsSplitF_boundary sentinelL (by decide) p
        (jsJoin sentinelL (q :: qs)) _ (le_refl _)
        (safePart_of_no_occur_no_stem p (hocc p (by simp))
          (hsafe p (by rw [List.dropLast_cons₂]; simp)))]
      congr 1
      exact ih (by simp) (fun r hr => hocc r (by simp [hr]))
        (fun r hr => hsafe r
          (by rw [List.dropLast_cons₂]; exact List.mem_cons_of_mem _ hr))

/-- The head part produced by the split is a prefix of the input. -/
theorem jsSplitF_head_prefixOfInput (sep : List Char) :
    ∀ (f : Nat) (s p : List Char) (ps : List (List Char)),
      jsSplitF sep f s = p :: ps → p <+: s := by
  intro f
  induction f with
  | zero =>
    intro s p ps h
    simp only [jsSplitF] at h
    injection h with h1 _
    subst h1
    exact List.prefix_refl _
  | succ f ih =>
    intro s p ps h
    cases s with
    | nil =>
      simp only [jsSplitF] at h
      injection h with h1 _
      subst h1
      exact List.prefix_refl _
    | cons c rest =>
      simp only [jsSplitF] at h
      by_cases hpre : sep.isPrefixOf (c :: rest) = true
      · rw [if_pos hpre] at h
        injection h with h1 _
        subst h1
        exact List.nil_prefix
      · rw [if_neg hpre] at h
        rcases hE : jsSplitF sep f rest with _ | ⟨q, qs⟩
        · exact absurd hE (jsSplitF_ne_nil sep f rest)
        · rw [hE] at h
          injection h with h1 _
          subst h1
          exact List.cons_prefix_cons.mpr ⟨rfl, ih rest q qs hE⟩

/-- Every part produced by the split is an infix of the input. -/
theorem jsSplitF_mem_infixOfInput (sep : List Char) :
    ∀ (f : Nat) (s : List Char), ∀ p ∈ jsSplitF sep f s, p <:+: s := by
  intro f
  induction f with
  | zero =>
    intro s p hp
    simp only [jsSplitF, List.mem_singleton] at hp
    subst hp
    exact List.infix_refl _
  | succ f ih =>
    intro s p hp
    cases s with
    | nil =>
      simp only [jsSplitF, List.mem_singleton] at hp
      subst hp
      exact List.infix_refl _
    | cons c rest =>
      simp only [jsSplitF] at hp
      by_cases hpre : sep.isPrefixOf (c :: rest) = true
      · rw [if_pos hpre] at hp
        rcases List.mem_cons.mp hp with h | h
        · subst h; exact List.nil_infix
        · exact List.infix_cons
            ((ih _ p h).trans (List.drop_suffix _ rest).isInfix)
      · rw [if_neg hpre] at hp
        rcases hE : jsSplitF sep f rest with _ | ⟨q, qs⟩
        · exact absurd hE (jsSplitF_ne_nil sep f rest)
        · rw [hE] at hp
          rcases List.mem_cons.mp hp with h | h
          · subst h
            exact (List.cons_prefix_cons.mpr
              ⟨rfl, jsSplitF_head_prefixOfInput sep f rest q qs hE⟩).isInfix
          · refine List.infix_cons (ih rest p ?_)
            rw [hE]
            exact List.mem_cons_of_mem _ h

/-- C7 corrected (counterexample): `"a#FC*SPACE* b"` does not contain
the sentinel, yet decoding its encoding yields `"a FC*SPACE*#b"` — the
token `a#FC*SPACE*` ends with the sentinel stem, so in the encoded
string a sentinel occurrence starts inside the token and runs into the
separator that `join` inserted, and the greedy leftmost `split` cuts
there first. -/
theorem roundTrip_counterexample :
    ¬ sentinelL <:+: ("a#FC*SPACE* b" : String).data ∧
      decodeArg (encodeArg "a#FC*SPACE* b") ≠ "a#FC*SPACE* b" := by
  constructor <;> decide

/-- C7 amended.  `decode(encode(s)) == s` holds for every string that
does not contain the sentinel `#FC*SPACE*#` *and* in which no
space-separated token except possibly the last ends with the sentinel
stem `#FC*SPACE*`; the extra condition is exactly what the
counterexample violates. -/
theorem decode_encode_roundTrip (s : String)
    (h1 : ¬ sentinelL <:+: s.data)
    (h2 : ∀ p ∈ (jsSplit spaceL s.data).dropLast, ¬ sentinelPfx <:+ p) :
    decodeArg (encodeArg s) = s := by
  obtain ⟨l⟩ := s
  have hocc : ∀ p ∈ jsSplit spaceL l, ¬ sentinelL <:+: p := by
    intro p hp hcon
    exact h1 (hcon.trans (jsSplitF_mem_infixOfInput spaceL _ l p hp))
  have hrec := jsSplit_jsJoin_parts (jsSplit spaceL l)
    (jsSplitF_ne_nil _ _ _) hocc h2
  show (⟨jsJoin spaceL
    (jsSplit sentinelL (jsJoin sentinelL (jsSplit spaceL l)))⟩ : String) = ⟨l⟩
  rw [hrec]
  unfold jsSplit
  rw [jsJoin_jsSplitF spaceL (by decide) l.length l (le_refl _)]

/-- Witness for C7 (amended): a three-token string with spaces
round-trips. -/
theorem decode_encode_roundTrip_witness :
    ¬ sentinelL <:+: ("force one two" : String).data ∧
      decodeArg (encodeArg "force one two") = "force one two" :=
  ⟨by decide, decode_encode_roundTrip "force one two" (by decide) (by decide)⟩

end ForceCode
